import Mathlib

/-!
MuCHSALSA (lazybastard): BLAST line ingestion, the wait group and edge identifiers.

A shallow embedding of `BlastFileReader::read`, `BlastFileReader::parseLine`
(`liblb/src/BlastFileReader.cpp`) and `Edge::getEdgeID`, `Edge::Edge`
(`liblb/src/graph/Edge.cpp`).

Conventions of the embedding.

* `std::string` is a list of characters.
* `int` is a 32 bit two's complement integer and `std::size_t` a 64 bit unsigned
  integer (LP64).  An `int` is an `Int` kept inside `[INT_MIN, INT_MAX]`; signed
  overflow and reading a vector past its end are undefined behaviour, which the
  embedding records as `Abort.undefinedBehaviour` instead of inventing a value.
  An `int` converted to `std::size_t` is reduced modulo `2 ^ 64`.
* The graph, the match map, the thread pool and the wait group are not part of the
  translated sources; a call into one of them is recorded as an event of a trace.
* Of the wait group only the header is among the sources.  Its operations are modelled
  from the spec as atomic events on the two members that carry its state, and a history
  of the wait group is any interleaving of such events.
* `float` is not modelled: the ratio stored in a match is kept as the pair of
  integers whose quotient the code computes.
-/

namespace lazybastard

/-! ## Machine integers -/

/-- The smallest value of `int`. -/
def INT_MIN : Int := -2147483648

/-- The largest value of `int`. -/
def INT_MAX : Int := 2147483647

/-- Conversion of a signed integer to `std::size_t`: reduction modulo `2 ^ 64`. -/
def toSizeT (v : Int) : Nat := (v % 18446744073709551616).toNat

/-- Exceptions that the translated code can raise. -/
inductive Exception where
  | runtime_error (what : String)
  | invalid_argument
  | out_of_range
  deriving DecidableEq, Repr

/-- The ways a computation stops without producing its value. -/
inductive Abort where
  | threw (e : Exception)
  | undefinedBehaviour
  deriving DecidableEq, Repr

/-- The integer is a value of `int`. -/
def InInt (v : Int) : Prop := INT_MIN ≤ v ∧ v ≤ INT_MAX

instance (v : Int) : Decidable (InInt v) := inferInstanceAs (Decidable (_ ∧ _))

/-- The `int` arithmetic done on a range that starts at `s` and ends at `e` stays inside
`int`: `e - 1` when the pair is built, then `second - first` and `second - first + 1`. -/
def RangeInInt (s e : Int) : Prop := InInt (e - 1) ∧ InInt (e - 1 - s) ∧ InInt (e - 1 - s + 1)

instance (s e : Int) : Decidable (RangeInInt s e) := inferInstanceAs (Decidable (_ ∧ _))

/-- An `int` result: the value when it is representable, undefined behaviour when the
arithmetic overflowed. -/
def checkedInt (v : Int) : Except Abort Int :=
  if InInt v then .ok v else .error .undefinedBehaviour

/-! ## Standard library: `std::getline` and `std::stoi` -/

/-- The loop `while (std::getline(is, token, delim)) out.push_back(token);` run on the
remaining characters of the stream.  `cur` holds, in reverse, the characters the current
call of `getline` has extracted so far.  A call that meets the delimiter yields its token
(possibly empty) and discards the delimiter; a call that meets the end of the stream
yields its token when it extracted at least one character and fails, ending the loop,
when it extracted none. -/
def getlineAll (delim : Char) : List Char → List Char → List (List Char)
  | cur, [] => if cur = [] then [] else [cur.reverse]
  | cur, c :: cs =>
    if c = delim then cur.reverse :: getlineAll delim [] cs
    else getlineAll delim (c :: cur) cs

/-- The classification `isspace` of the "C" locale. -/
def isspace (c : Char) : Bool :=
  c = ' ' || c = '\t' || c = '\n' || c = Char.ofNat 11 || c = Char.ofNat 12 || c = '\r'

/-- Decimal digits. -/
def isdigit (c : Char) : Bool := decide ('0' ≤ c) && decide (c ≤ '9')

/-- Leading white space is skipped by `strtol`. -/
def skipSpaces : List Char → List Char
  | [] => []
  | c :: cs => if isspace c then skipSpaces cs else c :: cs

/-- The values of the longest run of decimal digits at the front of the text. -/
def leadingDigits : List Char → List Nat
  | [] => []
  | c :: cs => if isdigit c then (c.toNat - 48) :: leadingDigits cs else []

/-- The number written by a sequence of decimal digits. -/
def digitsValue (ds : List Nat) : Nat := ds.foldl (fun acc d => 10 * acc + d) 0

/-- The sign accepted by `strtol` and the text after it. -/
def splitSign : List Char → Bool × List Char
  | '-' :: rest => (true, rest)
  | '+' :: rest => (false, rest)
  | rest => (false, rest)

/-- The integer written by a sign and the number after it. -/
def signedValue (negative : Bool) (n : Nat) : Int := if negative then -(n : Int) else (n : Int)

/-- The function `std::stoi(str)` (base 10): white space, an optional sign and the longest
run of digits are read and whatever follows is ignored.  Without a digit it throws
`std::invalid_argument`; a value outside `int` throws `std::out_of_range`. -/
def stoi (str : List Char) : Except Exception Int :=
  let signed := splitSign (skipSpaces str)
  let ds := leadingDigits signed.2
  if ds = [] then .error .invalid_argument
  else if InInt (signedValue signed.1 (digitsValue ds)) then
    .ok (signedValue signed.1 (digitsValue ds))
  else .error .out_of_range

/-! ## `BlastFileReader.cpp` -/

/-- Constant `MINIMUM_MATCHES` (line 19). -/
def MINIMUM_MATCHES : Nat := 400
/-- Constant `TH_LENGTH` (line 20). -/
def TH_LENGTH : Nat := 500
/-- Constant `TH_MATCHES` (line 21). -/
def TH_MATCHES : Nat := 500

/-- Position of the illumina identifier. -/
def POS_IID : Nat := 0
/-- Position of the nanopore identifier. -/
def POS_NID : Nat := 5
/-- Position of the illumina range start. -/
def POS_IRS : Nat := 2
/-- Position of the illumina range end. -/
def POS_IRE : Nat := 3
/-- Position of the number of matches. -/
def POS_NOM : Nat := 9
/-- Position of the nanopore length. -/
def POS_NLE : Nat := 6
/-- Position of the nanopore range start. -/
def POS_NRS : Nat := 7
/-- Position of the nanopore range end. -/
def POS_NRE : Nat := 8
/-- Position of the direction. -/
def POS_DIR : Nat := 4

/-- The value `std::max({POS_IID, ..., POS_DIR})` that line 59 compares the number of
tokens with. -/
def maxPos : Nat :=
  [POS_IID, POS_NID, POS_IRS, POS_IRE, POS_NOM, POS_NLE, POS_NRS, POS_NRE, POS_DIR].foldl max 0

/-- A `threading::WaitGroup *`: the identity of a wait group. -/
abbrev WaitGroupRef := Nat

/-- The aggregate `matching::VertexMatch` as `parseLine` fills it (lines 86-87).  The
`float` ratio is kept as its numerator and denominator. -/
structure VertexMatch where
  nanoporeRange : Int × Int
  illuminaRange : Int × Int
  rRatio : Int × Int
  direction : Bool
  matchCount : Nat
  thresholdsPassed : Bool
  deriving DecidableEq, Repr

/-- The calls `parseLine` makes on its collaborators. -/
inductive Effect where
  | addVertex (id : List Char) (nanoporeLength : Int)
  | addVertexMatch (nanoporeID illuminaID : List Char) (vm : VertexMatch)
  | done (wg : WaitGroupRef)
  deriving DecidableEq, Repr

/-- How a call ended. -/
inductive Completion where
  | returned
  | aborted (a : Abort)
  deriving DecidableEq, Repr

/-- What a call of `parseLine` did: the calls it made, in order, and how it ended. -/
structure Outcome where
  effects : List Effect
  completion : Completion
  deriving DecidableEq, Repr

/-- A `threading::Job` as `read` builds it: parameter 0 is the wait group, parameter 1 the
line. -/
structure Job where
  param0 : WaitGroupRef
  param1 : List Char
  deriving DecidableEq, Repr

/-- The access `tokens[pos]`; past the end of the vector it is undefined behaviour. -/
def tokenAt (tokens : List (List Char)) (pos : Nat) : Except Abort (List Char) :=
  match tokens[pos]? with
  | some t => .ok t
  | none => .error .undefinedBehaviour

/-- The expression `std::stoi(tokens[pos])`. -/
def stoiAt (tokens : List (List Char)) (pos : Nat) : Except Abort Int :=
  match tokenAt tokens pos with
  | .error a => .error a
  | .ok t =>
    match stoi t with
    | .ok v => .ok v
    | .error e => .error (.threw e)

/-- The expression `std::make_pair(std::stoi(tokens[ps]), std::stoi(tokens[pe]) - 1)` of
lines 63 and 78, its arguments evaluated from left to right. -/
def readRange (tokens : List (List Char)) (ps pe : Nat) : Except Abort (Int × Int) :=
  match stoiAt tokens ps with
  | .error a => .error a
  | .ok first =>
    match stoiAt tokens pe with
    | .error a => .error a
    | .ok e =>
      match checkedInt (e - 1) with
      | .error a => .error a
      | .ok second => .ok (first, second)

/-- The `int` expression `range.second - range.first + 1` of lines 69, 80, 81 and 83. -/
def rangeLength (range : Int × Int) : Except Abort Int :=
  match checkedInt (range.2 - range.1) with
  | .error a => .error a
  | .ok d => checkedInt (d + 1)

/-- The values computed by lines 63-69; `matchCount` is the variable `matches` of the
source. -/
structure Head where
  illuminaRange : Int × Int
  matchCount : Nat
  nanoporeLength : Int
  illuminaLength : Int
  addNode : Bool
  deriving DecidableEq, Repr

/-- Lines 63-69 of `parseLine`: the illumina range, the number of matches converted to
`std::size_t`, the nanopore length and the flag `addNode`.  Both comparisons are made in
`std::size_t`, the type of `MINIMUM_MATCHES`. -/
def parseHead (tokens : List (List Char)) : Except Abort Head :=
  match readRange tokens POS_IRS POS_IRE with
  | .error a => .error a
  | .ok illuminaRange =>
    match stoiAt tokens POS_NOM with
    | .error a => .error a
    | .ok nom =>
      let matchCount := toSizeT nom
      match stoiAt tokens POS_NLE with
      | .error a => .error a
      | .ok nanoporeLength =>
        match rangeLength illuminaRange with
        | .error a => .error a
        | .ok illuminaLength =>
          .ok { illuminaRange := illuminaRange
                matchCount := matchCount
                nanoporeLength := nanoporeLength
                illuminaLength := illuminaLength
                addNode := decide (MINIMUM_MATCHES ≤ matchCount) &&
                  decide (MINIMUM_MATCHES ≤ toSizeT illuminaLength) }

/-- Lines 76-87 of `parseLine`: the illumina identifier and the match built for an
accepted record. -/
def parseMatch (tokens : List (List Char)) (h : Head) : Except Abort (List Char × VertexMatch) :=
  match tokenAt tokens POS_IID with
  | .error a => .error a
  | .ok illuminaID =>
    match readRange tokens POS_NRS POS_NRE with
    | .error a => .error a
    | .ok nanoporeRange =>
      match tokenAt tokens POS_DIR with
      | .error a => .error a
      | .ok dir =>
        match rangeLength nanoporeRange with
        | .error a => .error a
        | .ok nanoporeRangeLength =>
          .ok (illuminaID,
            { nanoporeRange := nanoporeRange
              illuminaRange := h.illuminaRange
              rRatio := (h.illuminaLength, nanoporeRangeLength)
              direction := decide (dir = ['+'])
              matchCount := h.matchCount
              thresholdsPassed := decide (TH_LENGTH ≤ toSizeT h.illuminaLength) &&
                decide (TH_MATCHES ≤ h.matchCount) })

/-- Lines 59-91 of `parseLine`, on the tokens of the line. -/
def parseTokens (wg : WaitGroupRef) (tokens : List (List Char)) : Outcome :=
  if tokens.length < maxPos then
    ⟨[], .aborted (.threw (.runtime_error "Invalid BLAST file."))⟩
  else
    match parseHead tokens with
    | .error a => ⟨[], .aborted a⟩
    | .ok h =>
      if h.addNode then
        match tokenAt tokens POS_NID with
        | .error a => ⟨[], .aborted a⟩
        | .ok nanoporeID =>
          match parseMatch tokens h with
          | .error a => ⟨[.addVertex nanoporeID h.nanoporeLength], .aborted a⟩
          | .ok (illuminaID, vm) =>
            ⟨[.addVertex nanoporeID h.nanoporeLength,
              .addVertexMatch nanoporeID illuminaID vm,
              .done wg], .returned⟩
      else ⟨[.done wg], .returned⟩

/-- The function `BlastFileReader::parseLine`: the line is cut at the tabs (lines 53-57)
and processed (lines 59-91). -/
def parseLine (pJob : Job) : Outcome :=
  parseTokens pJob.param0 (getlineAll '\t' [] pJob.param1)

/-- The calls `read` makes on the wait group and on the thread pool. -/
inductive ReadEvent where
  | add (wg : WaitGroupRef) (newJobs : Nat)
  | addJob (job : Job)
  | wait (wg : WaitGroupRef)
  deriving DecidableEq, Repr

/-- The loop of lines 40-45 of `read`, on the lines still to come from the input stream;
`trace` holds the calls made so far.  Every job runs `parseLine` (line 37) on the
parameters `&wg` and `line` (line 43). -/
def readLoop (wg : WaitGroupRef) : List (List Char) → List ReadEvent → List ReadEvent
  | [], trace => trace
  | line :: rest, trace =>
    readLoop wg rest (trace ++ [ReadEvent.add wg 1, ReadEvent.addJob ⟨wg, line⟩])

/-- The function `BlastFileReader::read`: the lines that `std::getline` cuts out of the
input stream are dispatched one by one (lines 40-45), then `wg.wait()` is called
(line 47).  `wg` is the address of the local wait group. -/
def read (wg : WaitGroupRef) (inputStream : List Char) : List ReadEvent :=
  readLoop wg (getlineAll '\n' [] inputStream) [] ++ [ReadEvent.wait wg]

/-- The sum of the arguments of the calls of `add` in a trace. -/
def totalAdded : List ReadEvent → Nat
  | [] => 0
  | ReadEvent.add _ newJobs :: rest => newJobs + totalAdded rest
  | _ :: rest => totalAdded rest

/-- The jobs submitted in a trace, in order. -/
def submittedJobs : List ReadEvent → List Job
  | [] => []
  | ReadEvent.addJob job :: rest => job :: submittedJobs rest
  | _ :: rest => submittedJobs rest

/-! ## `graph/Edge.cpp` -/

namespace graph

set_option linter.dupNamespace false

/-- A `Vertex *` or the pointer held by a `std::shared_ptr<Vertex>`: an address. -/
abbrev VertexPtr := Nat

/-- The part of a `graph::Vertex` that `Edge.cpp` reads: its identifier (`getID()`). -/
structure Vertex where
  id : List Char
  deriving DecidableEq, Repr

/-- The vertices in memory: what each address points to. -/
abbrev Memory := VertexPtr → Vertex

/-- The comparison `a < b` of two `std::string`s: lexicographic, character by character,
a proper initial part of a string coming before the string. -/
def strLess : List Char → List Char → Bool
  | [], [] => false
  | [], _ :: _ => true
  | _ :: _, [] => false
  | a :: as, b :: bs => if a < b then true else if b < a then false else strLess as bs

/-- Modelled from the spec: `lazybastard::util::sortPair` of `Util.h`, which is not among
the translated sources.  The spec identifies an edge "by a canonical ordering of the two
endpoint identifiers": the helper is taken to order the pair by the identifiers of the
vertices the pointers refer to, swapping the components when the identifier of the second
is smaller than that of the first, and to return the ordered pair.  Raw pointers and
shared pointers are ordered alike. -/
def sortPair (mem : Memory) (p : VertexPtr × VertexPtr) : VertexPtr × VertexPtr :=
  if strLess (mem p.2).id (mem p.1).id then (p.2, p.1) else p

/-- The function `Edge::getEdgeID` (lines 10-13). -/
def getEdgeID (mem : Memory) (vertices : VertexPtr × VertexPtr) : List Char :=
  let sorted := sortPair mem vertices
  (mem sorted.1).id ++ [','] ++ (mem sorted.2).id

/-- The members of a `graph::Edge` that its constructor initialises. -/
structure Edge where
  m_id : List Char
  m_vertices : VertexPtr × VertexPtr
  deriving DecidableEq, Repr

/-- The constructor `Edge::Edge` (lines 6-8), its members initialised in the order written:
`m_id` from the raw pointers of the argument as it was passed, then `m_vertices` from the
sorted argument. -/
def Edge.Edge (mem : Memory) (vertices : VertexPtr × VertexPtr) : Edge :=
  { m_id := getEdgeID mem (vertices.1, vertices.2)
    m_vertices := sortPair mem vertices }

end graph

/-! ## `threading/WaitGroup.h` -/

namespace threading

/-- The data members of `threading::WaitGroup` that carry its state (header lines 67-68):
the toggle that marks the wait group as waiting and locks `add`, and the number of jobs
assigned.  The mutex and the condition variable serve the blocking of `wait()`, which the
embedding renders by the call of `wait()` and its return being two separate events. -/
structure WaitGroup where
  m_waitLock : Bool
  m_jobCount : Nat
  deriving DecidableEq, Repr

/-- The wait group after its default construction (header line 21): the default member
initialisers `m_waitLock{false}` and `m_jobCount{0}`. -/
def WaitGroup.fresh : WaitGroup := { m_waitLock := false, m_jobCount := 0 }

/-- Why an event cannot take place in a state of the wait group. -/
inductive Refusal where
  | barrierMisuse
  | blocked
  | unsupported
  deriving DecidableEq, Repr

/-- Modelled from the spec: `WaitGroup::add` of `WaitGroup.cpp`, which is not among the
translated sources (only its declaration, header line 53, is).  The spec: "increases
pending-count by n", and a call "after a wait has begun and before it has returned" is
rejected "with a reportable error rather than silently corrupting the count".  The count
is a `std::size_t` (header line 68), so the sum is taken modulo `2 ^ 64`. -/
def WaitGroup.add (wg : WaitGroup) (newJobs : Nat) : Except Refusal WaitGroup :=
  if wg.m_waitLock then .error .barrierMisuse
  else .ok { wg with m_jobCount := (wg.m_jobCount + newJobs) % 18446744073709551616 }

/-- Modelled from the spec: `WaitGroup::done` of `WaitGroup.cpp`, which is not among the
translated sources (only its declaration, header line 58, is).  The spec: "atomically
decrements pending-count by 1", and "calling done() when the count is already zero is a
contract violation (reported, not silently ignored)". -/
def WaitGroup.done (wg : WaitGroup) : Except Refusal WaitGroup :=
  if wg.m_jobCount = 0 then .error .barrierMisuse
  else .ok { wg with m_jobCount := wg.m_jobCount - 1 }

/-- Modelled from the spec: the first half of `WaitGroup::wait` of `WaitGroup.cpp`, which
is not among the translated sources (only its declaration, header line 64, is).  The
spec: `wait()` "sets the waiting flag" and then blocks.  A second waiter is outside the
contract ("concurrent waiters are unsupported"). -/
def WaitGroup.waitEnter (wg : WaitGroup) : Except Refusal WaitGroup :=
  if wg.m_waitLock then .error .unsupported
  else .ok { wg with m_waitLock := true }

/-- Modelled from the spec: the second half of `WaitGroup::wait` of `WaitGroup.cpp`, which
is not among the translated sources.  The spec: `wait()` "blocks the calling thread until
pending-count reaches zero, then clears the waiting flag and returns, leaving the barrier
ready for reuse".  The return cannot take place while the count is not zero. -/
def WaitGroup.waitReturn (wg : WaitGroup) : Except Refusal WaitGroup :=
  if wg.m_waitLock = false then .error .unsupported
  else if wg.m_jobCount = 0 then .ok { wg with m_waitLock := false }
  else .error .blocked

/-- The events in the life of a wait group, each of them atomic: a call of `add`, a call
of `done`, the call of `wait` and the return of `wait`. -/
inductive Call where
  | add (newJobs : Nat)
  | done
  | waitEnter
  | waitReturn
  deriving DecidableEq, Repr

/-- The effect of one event on the wait group. -/
def WaitGroup.step (wg : WaitGroup) : Call → Except Refusal WaitGroup
  | .add newJobs => wg.add newJobs
  | .done => wg.done
  | .waitEnter => wg.waitEnter
  | .waitReturn => wg.waitReturn

/-- The effect of a history of events, in the order in which they take place, whichever
threads they come from. -/
def WaitGroup.run (wg : WaitGroup) : List Call → Except Refusal WaitGroup
  | [] => .ok wg
  | c :: rest =>
    match wg.step c with
    | .ok next => next.run rest
    | .error r => .error r

/-- The sum of the arguments of the calls of `add` in a history. -/
def addTotal : List Call → Nat
  | [] => 0
  | .add newJobs :: rest => newJobs + addTotal rest
  | _ :: rest => addTotal rest

/-- The number of calls of `done` in a history. -/
def doneCount : List Call → Nat
  | [] => 0
  | .done :: rest => 1 + doneCount rest
  | _ :: rest => doneCount rest

/-- A history without its calls of `done`: the events that come from the thread that adds
and waits. -/
def withoutDone : List Call → List Call
  | [] => []
  | .done :: rest => withoutDone rest
  | c :: rest => c :: withoutDone rest

/-- The events that `read` causes on its wait group up to the moment it blocks in
`wg.wait()`: its calls of `add` and the call of `wait`. -/
def callsOfRead : List ReadEvent → List Call
  | [] => []
  | .add _ newJobs :: rest => .add newJobs :: callsOfRead rest
  | .addJob _ :: rest => callsOfRead rest
  | .wait _ :: rest => .waitEnter :: callsOfRead rest

end threading

/-! # Theorems -/

/-! ## Auxiliary facts on the parsing steps -/

/-- The bound of the check of line 59 is 9. -/
theorem maxPos_eq : maxPos = 9 := by decide

/-- Arithmetic that stays inside `int` yields its value. -/
theorem checkedInt_ok {v : Int} (h : InInt v) : checkedInt v = .ok v := by
  unfold checkedInt
  exact if_pos h

/-- A token that was read lies inside the vector. -/
theorem tokenAt_ok_lt {tokens : List (List Char)} {pos : Nat} {t : List Char}
    (h : tokenAt tokens pos = .ok t) : pos < tokens.length := by
  unfold tokenAt at h
  cases hget : tokens[pos]? with
  | none => rw [hget] at h; cases h
  | some x =>
    by_contra hlt
    rw [List.getElem?_eq_none (Nat.le_of_not_lt hlt)] at hget
    cases hget

/-- A token that was parsed lies inside the vector. -/
theorem stoiAt_ok_lt {tokens : List (List Char)} {pos : Nat} {v : Int}
    (h : stoiAt tokens pos = .ok v) : pos < tokens.length := by
  unfold stoiAt at h
  cases ht : tokenAt tokens pos with
  | error a => rw [ht] at h; cases h
  | ok t => exact tokenAt_ok_lt ht

/-- The pair built by lines 63 and 78 when both ends parse and `e - 1` does not overflow. -/
theorem readRange_ok {tokens : List (List Char)} {ps pe : Nat} {s e : Int}
    (hs : stoiAt tokens ps = .ok s) (he : stoiAt tokens pe = .ok e) (h : InInt (e - 1)) :
    readRange tokens ps pe = .ok (s, e - 1) := by
  simp only [readRange, hs, he, checkedInt_ok h]

/-- The length `second - first + 1` when it does not overflow. -/
theorem rangeLength_ok {r : Int × Int} (h1 : InInt (r.2 - r.1)) (h2 : InInt (r.2 - r.1 + 1)) :
    rangeLength r = .ok (r.2 - r.1 + 1) := by
  simp only [rangeLength, checkedInt_ok h1, checkedInt_ok h2]

/-- Lines 63-69 on a line whose fields 2, 3, 6 and 9 parse. -/
theorem parseHead_ok {tokens : List (List Char)} {irs ire nom nle : Int}
    (hIRS : stoiAt tokens POS_IRS = .ok irs) (hIRE : stoiAt tokens POS_IRE = .ok ire)
    (hNOM : stoiAt tokens POS_NOM = .ok nom) (hNLE : stoiAt tokens POS_NLE = .ok nle)
    (hI : RangeInInt irs ire) :
    parseHead tokens = .ok
      { illuminaRange := (irs, ire - 1)
        matchCount := toSizeT nom
        nanoporeLength := nle
        illuminaLength := ire - 1 - irs + 1
        addNode := decide (MINIMUM_MATCHES ≤ toSizeT nom) &&
          decide (MINIMUM_MATCHES ≤ toSizeT (ire - 1 - irs + 1)) } := by
  obtain ⟨h1, h2, h3⟩ := hI
  have hlen : rangeLength (irs, ire - 1) = .ok (ire - 1 - irs + 1) := rangeLength_ok h2 h3
  simp only [parseHead, readRange_ok hIRS hIRE h1, hNOM, hNLE, hlen]

/-- Lines 76-87 on a line whose fields 7 and 8 parse. -/
theorem parseMatch_ok {tokens : List (List Char)} {iid dir : List Char} {nrs nre : Int} (h : Head)
    (hIID : tokenAt tokens POS_IID = .ok iid) (hDIR : tokenAt tokens POS_DIR = .ok dir)
    (hNRS : stoiAt tokens POS_NRS = .ok nrs) (hNRE : stoiAt tokens POS_NRE = .ok nre)
    (hN : RangeInInt nrs nre) :
    parseMatch tokens h = .ok (iid,
      { nanoporeRange := (nrs, nre - 1)
        illuminaRange := h.illuminaRange
        rRatio := (h.illuminaLength, nre - 1 - nrs + 1)
        direction := decide (dir = ['+'])
        matchCount := h.matchCount
        thresholdsPassed := decide (TH_LENGTH ≤ toSizeT h.illuminaLength) &&
          decide (TH_MATCHES ≤ h.matchCount) }) := by
  obtain ⟨h1, h2, h3⟩ := hN
  have hlen : rangeLength (nrs, nre - 1) = .ok (nre - 1 - nrs + 1) := rangeLength_ok h2 h3
  simp only [parseMatch, hIID, readRange_ok hNRS hNRE h1, hDIR, hlen]

/-- A non-negative `int` keeps its value when converted to `std::size_t`. -/
theorem toSizeT_of_nonneg {v : Int} (h0 : 0 ≤ v) (h : InInt v) : toSizeT v = v.toNat := by
  unfold toSizeT
  obtain ⟨_, hmax⟩ := h
  rw [Int.emod_eq_of_lt h0 (by unfold INT_MAX at hmax; omega)]

/-- The result of `std::stoi` is a value of `int`. -/
theorem stoi_inInt {str : List Char} {v : Int} (h : stoi str = .ok v) : InInt v := by
  unfold stoi at h
  simp only at h
  split at h
  · cases h
  · split at h
    · rename_i hr
      injection h with h
      exact h ▸ hr
    · cases h

/-- The result of `std::stoi(tokens[pos])` is a value of `int`. -/
theorem stoiAt_inInt {tokens : List (List Char)} {pos : Nat} {v : Int}
    (h : stoiAt tokens pos = .ok v) : InInt v := by
  unfold stoiAt at h
  split at h
  · cases h
  · split at h
    · rename_i hs
      cases h
      exact stoi_inInt hs
    · cases h

/-- A line that passes the check and is not accepted only signals `done()`. -/
theorem parseTokens_reject (wg : WaitGroupRef) {tokens : List (List Char)} {h : Head}
    (hlen : ¬ tokens.length < maxPos) (hh : parseHead tokens = .ok h) (hno : h.addNode = false) :
    parseTokens wg tokens = ⟨[.done wg], .returned⟩ := by
  unfold parseTokens
  rw [if_neg hlen]
  simp only [hh, hno]
  rfl

/-- A line that passes the check, is accepted and whose match can be built adds the vertex,
adds the match and signals `done()`. -/
theorem parseTokens_accept (wg : WaitGroupRef) {tokens : List (List Char)} {h : Head}
    {nid iid : List Char} {vm : VertexMatch}
    (hlen : ¬ tokens.length < maxPos) (hh : parseHead tokens = .ok h) (hyes : h.addNode = true)
    (hNID : tokenAt tokens POS_NID = .ok nid) (hm : parseMatch tokens h = .ok (iid, vm)) :
    parseTokens wg tokens =
      ⟨[.addVertex nid h.nanoporeLength, .addVertexMatch nid iid vm, .done wg], .returned⟩ := by
  unfold parseTokens
  rw [if_neg hlen]
  simp only [hh, hyes, hNID, hm]
  rfl

/-- A failure in lines 63-69 (a field among IRS, IRE, NOM, NLE that does not parse, an
overflow) ends the call before any effect. -/
theorem parseTokens_head_abort (wg : WaitGroupRef) {tokens : List (List Char)} {a : Abort}
    (hlen : ¬ tokens.length < maxPos) (hh : parseHead tokens = .error a) :
    parseTokens wg tokens = ⟨[], .aborted a⟩ := by
  unfold parseTokens
  rw [if_neg hlen]
  simp only [hh]

/-- A line whose field 9 was parsed passes the check of line 59. -/
theorem not_short_of_nom {tokens : List (List Char)} {nom : Int}
    (h : stoiAt tokens POS_NOM = .ok nom) : ¬ tokens.length < maxPos := by
  have := stoiAt_ok_lt h
  rw [maxPos_eq]
  unfold POS_NOM at this
  omega

/-! ## `parseLine`: the threshold filter and the calls of an accepted line (C1, C2) -/

/-- Claim C1, evaluated on the code: a line whose match count is `-1` and a line whose
illumina range ends below its start are both accepted.  The match count is converted to
`std::size_t` (line 64) and the range length is compared with a `std::size_t` constant
(line 69), so a negative value counts as a huge one: the vertex and the match are
added. -/
theorem parseLine_accepts_negative :
    parseLine ⟨0, "R1\tIL1\t100\t600\t+\tN1\t500\t200\t700\t-1".toList⟩ =
      ⟨[.addVertex "N1".toList 500,
        .addVertexMatch "N1".toList "R1".toList
          { nanoporeRange := (200, 699), illuminaRange := (100, 599), rRatio := (500, 500),
            direction := true, matchCount := 18446744073709551615, thresholdsPassed := true },
        .done 0], .returned⟩ ∧
    parseLine ⟨0, "R1\tIL1\t600\t100\t+\tN1\t500\t200\t700\t500".toList⟩ =
      ⟨[.addVertex "N1".toList 500,
        .addVertexMatch "N1".toList "R1".toList
          { nanoporeRange := (200, 699), illuminaRange := (600, 99), rRatio := (-500, 500),
            direction := true, matchCount := 500, thresholdsPassed := true },
        .done 0], .returned⟩ := by
  constructor <;> decide

/-- Claim C2 as stated fails twice.  On the first example line of the spec the match is
keyed by (`N1`, `R1`): field 0 of that line is `R1`, and `IL1`, its field 1, is never
read, so no match for (`N1`, `IL1`) is added.  On an accepted line whose field 9 is `-1`
the stored match count is `2 ^ 64 - 1`, not the value of field 9. -/
theorem parseLine_example_key_and_count :
    (parseLine ⟨0, "R1\tIL1\t100\t600\t+\tN1\t500\t200\t700\t500".toList⟩).effects =
      [.addVertex "N1".toList 500,
       .addVertexMatch "N1".toList "R1".toList
          { nanoporeRange := (200, 699), illuminaRange := (100, 599), rRatio := (500, 500),
            direction := true, matchCount := 500, thresholdsPassed := true },
       .done 0] ∧
    "R1".toList ≠ "IL1".toList ∧
    stoiAt (getlineAll '\t' [] "R1\tIL1\t100\t600\t+\tN1\t500\t200\t700\t-1".toList) POS_NOM
      = .ok (-1) ∧
    (parseLine ⟨0, "R1\tIL1\t100\t600\t+\tN1\t500\t200\t700\t-1".toList⟩).effects =
      [.addVertex "N1".toList 500,
       .addVertexMatch "N1".toList "R1".toList
          { nanoporeRange := (200, 699), illuminaRange := (100, 599), rRatio := (500, 500),
            direction := true, matchCount := 18446744073709551615, thresholdsPassed := true },
       .done 0] := by
  refine ⟨by decide, by decide, rfl, by decide⟩

/-- Claim C2, amended.  Take a line whose fields 0, 4 and 5 exist, whose six numeric
fields parse and whose `int` arithmetic stays inside `int`.  When the code accepts it
(both `std::size_t` comparisons with `MINIMUM_MATCHES` hold) and field 9 is not negative,
`parseLine` makes exactly the calls `addVertex(NID, NLE)`, then `addVertexMatch` keyed by
(NID, field 0) with nanopore range (NRS, NRE - 1), illumina range (IRS, IRE - 1),
direction true exactly when field 4 is `+` and match count field 9, then `done()`, and
returns.  When the code does not accept it, `parseLine` only calls `done()`. -/
theorem parseLine_wellFormed (wg : WaitGroupRef) (line iid dir nid : List Char)
    (irs ire nom nle nrs nre : Int)
    (hIID : tokenAt (getlineAll '\t' [] line) POS_IID = .ok iid)
    (hDIR : tokenAt (getlineAll '\t' [] line) POS_DIR = .ok dir)
    (hNID : tokenAt (getlineAll '\t' [] line) POS_NID = .ok nid)
    (hIRS : stoiAt (getlineAll '\t' [] line) POS_IRS = .ok irs)
    (hIRE : stoiAt (getlineAll '\t' [] line) POS_IRE = .ok ire)
    (hNOM : stoiAt (getlineAll '\t' [] line) POS_NOM = .ok nom)
    (hNLE : stoiAt (getlineAll '\t' [] line) POS_NLE = .ok nle)
    (hNRS : stoiAt (getlineAll '\t' [] line) POS_NRS = .ok nrs)
    (hNRE : stoiAt (getlineAll '\t' [] line) POS_NRE = .ok nre)
    (hI : RangeInInt irs ire) (hN : RangeInInt nrs nre) :
    ((MINIMUM_MATCHES ≤ toSizeT nom ∧ MINIMUM_MATCHES ≤ toSizeT (ire - 1 - irs + 1)) →
      0 ≤ nom →
      parseLine ⟨wg, line⟩ =
        ⟨[.addVertex nid nle,
          .addVertexMatch nid iid
            { nanoporeRange := (nrs, nre - 1)
              illuminaRange := (irs, ire - 1)
              rRatio := (ire - 1 - irs + 1, nre - 1 - nrs + 1)
              direction := decide (dir = ['+'])
              matchCount := nom.toNat
              thresholdsPassed := decide (TH_LENGTH ≤ toSizeT (ire - 1 - irs + 1)) &&
                decide (TH_MATCHES ≤ nom.toNat) },
          .done wg], .returned⟩) ∧
    (¬ (MINIMUM_MATCHES ≤ toSizeT nom ∧ MINIMUM_MATCHES ≤ toSizeT (ire - 1 - irs + 1)) →
      parseLine ⟨wg, line⟩ = ⟨[.done wg], .returned⟩) := by
  have hlen := not_short_of_nom hNOM
  have hh := parseHead_ok hIRS hIRE hNOM hNLE hI
  constructor
  · intro hacc h0
    have hm := parseMatch_ok
      { illuminaRange := (irs, ire - 1)
        matchCount := toSizeT nom
        nanoporeLength := nle
        illuminaLength := ire - 1 - irs + 1
        addNode := decide (MINIMUM_MATCHES ≤ toSizeT nom) &&
          decide (MINIMUM_MATCHES ≤ toSizeT (ire - 1 - irs + 1)) } hIID hDIR hNRS hNRE hN
    have hyes : (decide (MINIMUM_MATCHES ≤ toSizeT nom) &&
        decide (MINIMUM_MATCHES ≤ toSizeT (ire - 1 - irs + 1))) = true := by
      simp [hacc.1, hacc.2]
    have := parseTokens_accept wg hlen hh hyes hNID hm
    unfold parseLine
    rw [this, toSizeT_of_nonneg h0 (stoiAt_inInt hNOM)]
  · intro hrej
    have hno : (decide (MINIMUM_MATCHES ≤ toSizeT nom) &&
        decide (MINIMUM_MATCHES ≤ toSizeT (ire - 1 - irs + 1))) = false := by
      rw [← Bool.not_eq_true]
      simpa using hrej
    unfold parseLine
    exact parseTokens_reject wg hlen hh hno

/-- Claim C2, amended, on the two example lines of the spec: the first line is accepted,
the vertex `N1` and the match keyed by (`N1`, `R1`) with direction `true` are added; the
second line is rejected and only `done()` is called. -/
theorem parseLine_wellFormed_examples :
    parseLine ⟨7, "R1\tIL1\t100\t600\t+\tN1\t500\t200\t700\t500".toList⟩ =
      ⟨[.addVertex "N1".toList 500,
        .addVertexMatch "N1".toList "R1".toList
          { nanoporeRange := (200, 699), illuminaRange := (100, 599), rRatio := (500, 500),
            direction := true, matchCount := 500, thresholdsPassed := true },
        .done 7], .returned⟩ ∧
    parseLine ⟨7, "R2\tIL2\t0\t50\t+\tN2\t500\t0\t50\t10".toList⟩ =
      ⟨[.done 7], .returned⟩ :=
  ⟨(parseLine_wellFormed 7 "R1\tIL1\t100\t600\t+\tN1\t500\t200\t700\t500".toList
      "R1".toList "+".toList "N1".toList 100 600 500 500 200 700
      rfl rfl rfl rfl rfl rfl rfl rfl rfl (by decide) (by decide)).1 (by decide) (by decide),
   (parseLine_wellFormed 7 "R2\tIL2\t0\t50\t+\tN2\t500\t0\t50\t10".toList
      "R2".toList "+".toList "N2".toList 0 50 10 500 0 50
      rfl rfl rfl rfl rfl rfl rfl rfl rfl (by decide) (by decide)).2 (by decide)⟩

/-! ## `parseLine`: the signal `done()` (C3), malformed lines (C4, C5, C6) -/

/-- A call that returns made one of two traces. -/
theorem parseTokens_returned {wg : WaitGroupRef} {tokens : List (List Char)}
    (h : (parseTokens wg tokens).completion = .returned) :
    (parseTokens wg tokens).effects = [.done wg] ∨
    ∃ nid nle iid vm, (parseTokens wg tokens).effects =
      [.addVertex nid nle, .addVertexMatch nid iid vm, .done wg] := by
  unfold parseTokens at h ⊢
  split
  · rename_i hshort
    rw [if_pos hshort] at h
    cases h
  · rename_i hlong
    rw [if_neg hlong] at h
    split
    · rename_i a hh
      simp only [hh] at h
      cases h
    · rename_i hd hh
      simp only [hh] at h
      split
      · rename_i hyes
        rw [if_pos hyes] at h
        split
        · rename_i a hn
          simp only [hn] at h
          cases h
        · rename_i nid hn
          simp only [hn] at h
          split
          · rename_i a hm
            simp only [hm] at h
            cases h
          · rename_i iid vm hm
            exact Or.inr ⟨nid, hd.nanoporeLength, iid, vm, rfl⟩
      · exact Or.inl rfl

/-- Claim C3: whenever `parseLine` runs to its end without an exception (and without
undefined behaviour), be the record accepted or rejected, its trace ends with the call of
`done()` on the wait group of job parameter 0 and holds no other call of `done()`: the
call is made exactly once and is the last effect. -/
theorem parseLine_done_once_last (pJob : Job)
    (h : (parseLine pJob).completion = .returned) :
    ∃ before, (parseLine pJob).effects = before ++ [.done pJob.param0] ∧
      (∀ e ∈ before, ∀ wg, e ≠ .done wg) ∧
      (parseLine pJob).effects.count (.done pJob.param0) = 1 := by
  unfold parseLine at h ⊢
  rcases parseTokens_returned h with he | ⟨nid, nle, iid, vm, he⟩
  · refine ⟨[], by rw [he]; rfl, by simp, by rw [he]; simp⟩
  · refine ⟨[.addVertex nid nle, .addVertexMatch nid iid vm], by rw [he]; rfl, ?_, ?_⟩
    · intro e he' wg
      simp only [List.mem_cons, List.mem_singleton, List.not_mem_nil, or_false] at he'
      rcases he' with rfl | rfl <;> simp
    · rw [he]
      simp [List.count_cons]

/-- Claim C3 on the two example lines of the spec: the accepted line and the rejected one
both return, and both traces end with the one call of `done()`. -/
theorem parseLine_done_once_last_examples :
    (∃ before, (parseLine ⟨7, "R1\tIL1\t100\t600\t+\tN1\t500\t200\t700\t500".toList⟩).effects
        = before ++ [.done 7] ∧
      (∀ e ∈ before, ∀ wg, e ≠ .done wg) ∧
      (parseLine ⟨7, "R1\tIL1\t100\t600\t+\tN1\t500\t200\t700\t500".toList⟩).effects.count
        (.done 7) = 1) ∧
    (∃ before, (parseLine ⟨7, "R2\tIL2\t0\t50\t+\tN2\t500\t0\t50\t10".toList⟩).effects
        = before ++ [.done 7] ∧
      (∀ e ∈ before, ∀ wg, e ≠ .done wg) ∧
      (parseLine ⟨7, "R2\tIL2\t0\t50\t+\tN2\t500\t0\t50\t10".toList⟩).effects.count
        (.done 7) = 1) :=
  ⟨parseLine_done_once_last ⟨7, "R1\tIL1\t100\t600\t+\tN1\t500\t200\t700\t500".toList⟩
      (by decide),
   parseLine_done_once_last ⟨7, "R2\tIL2\t0\t50\t+\tN2\t500\t0\t50\t10".toList⟩ (by decide)⟩

/-- Claim C4 as stated fails: on the malformed line `R1<tab>IL1` (two fields)
`parseLine` makes no call at all, so `done()` is not signalled, and the exception
`std::runtime_error("Invalid BLAST file.")` leaves the work function. -/
theorem parseLine_malformed_example :
    parseLine ⟨0, "R1\tIL1".toList⟩ =
      ⟨[], .aborted (.threw (.runtime_error "Invalid BLAST file."))⟩ ∧
    (parseLine ⟨0, "R1\tIL1".toList⟩).effects.count (.done 0) = 0 := by
  constructor <;> decide

/-- Claim C4, amended: on every line with fewer than nine tab separated tokens
`parseLine` throws `std::runtime_error("Invalid BLAST file.")` out of the work function
before any call: no vertex and no match is added and `done()` is not signalled. -/
theorem parseLine_malformed (pJob : Job)
    (h : (getlineAll '\t' [] pJob.param1).length < 9) :
    parseLine pJob = ⟨[], .aborted (.threw (.runtime_error "Invalid BLAST file."))⟩ := by
  unfold parseLine parseTokens
  rw [if_pos (by rw [maxPos_eq]; exact h)]

/-- Claim C4, amended, on the empty line and on a line of eight fields. -/
theorem parseLine_malformed_examples :
    parseLine ⟨3, []⟩ = ⟨[], .aborted (.threw (.runtime_error "Invalid BLAST file."))⟩ ∧
    parseLine ⟨3, "R1\tIL1\t100\t600\t+\tN1\t500\t200".toList⟩ =
      ⟨[], .aborted (.threw (.runtime_error "Invalid BLAST file."))⟩ :=
  ⟨parseLine_malformed ⟨3, []⟩ (by decide),
   parseLine_malformed ⟨3, "R1\tIL1\t100\t600\t+\tN1\t500\t200".toList⟩ (by decide)⟩

/-- Claim C5, evaluated on the code: a line of exactly nine tokens passes the check of
lines 59-61, because `std::max` of the positions is 9 and the test is
`tokens.size() < 9`; line 64 then reads `tokens[9]`, one past the end of the vector,
which is undefined behaviour.  The line is not rejected as malformed. -/
theorem parseLine_nine_tokens :
    (getlineAll '\t' [] "R1\tIL1\t100\t600\t+\tN1\t500\t200\t700".toList).length = 9 ∧
    ¬ ((getlineAll '\t' [] "R1\tIL1\t100\t600\t+\tN1\t500\t200\t700".toList).length < maxPos) ∧
    tokenAt (getlineAll '\t' [] "R1\tIL1\t100\t600\t+\tN1\t500\t200\t700".toList) POS_NOM
      = .error .undefinedBehaviour ∧
    parseLine ⟨0, "R1\tIL1\t100\t600\t+\tN1\t500\t200\t700".toList⟩ =
      ⟨[], .aborted .undefinedBehaviour⟩ := by
  refine ⟨by decide, by decide, rfl, by decide⟩

/-- Claim C6, evaluated on the code: on a line that passes both thresholds and whose
field 7 (NRS) is `x`, the vertex `N1` is added (line 73) before `std::stoi` throws
`std::invalid_argument` on field 7 (line 78); the same happens when field 8 (NRE) does
not parse.  The line is not skipped as a whole. -/
theorem parseLine_bad_nanopore_range :
    stoi "x".toList = .error .invalid_argument ∧
    parseLine ⟨0, "R1\tIL1\t100\t600\t+\tN1\t500\tx\t700\t500".toList⟩ =
      ⟨[.addVertex "N1".toList 500], .aborted (.threw .invalid_argument)⟩ ∧
    parseLine ⟨0, "R1\tIL1\t100\t600\t+\tN1\t500\t200\t99999999999\t500".toList⟩ =
      ⟨[.addVertex "N1".toList 500], .aborted (.threw .out_of_range)⟩ := by
  refine ⟨rfl, by decide, by decide⟩

/-! ## `read` (C7) -/

/-- The loop of `read` appends, for each line in order, the two calls of its body. -/
theorem readLoop_eq (wg : WaitGroupRef) (lines : List (List Char)) (trace : List ReadEvent) :
    readLoop wg lines trace =
      trace ++
        lines.flatMap (fun line => [ReadEvent.add wg 1, ReadEvent.addJob ⟨wg, line⟩]) := by
  induction lines generalizing trace with
  | nil => simp [readLoop]
  | cons line rest ih =>
    rw [readLoop, ih]
    simp [List.flatMap_cons]

/-- The total added is additive over traces. -/
theorem totalAdded_append (xs ys : List ReadEvent) :
    totalAdded (xs ++ ys) = totalAdded xs + totalAdded ys := by
  induction xs with
  | nil => simp [totalAdded]
  | cons x xs ih =>
    cases x <;> simp [totalAdded, ih, Nat.add_assoc]

/-- The submitted jobs of two traces in a row. -/
theorem submittedJobs_append (xs ys : List ReadEvent) :
    submittedJobs (xs ++ ys) = submittedJobs xs ++ submittedJobs ys := by
  induction xs with
  | nil => simp [submittedJobs]
  | cons x xs ih =>
    cases x <;> simp [submittedJobs, ih]

/-- The loop adds one per line. -/
theorem totalAdded_dispatch (wg : WaitGroupRef) (lines : List (List Char)) :
    totalAdded (lines.flatMap (fun line => [ReadEvent.add wg 1, ReadEvent.addJob ⟨wg, line⟩]))
      = lines.length := by
  induction lines with
  | nil => rfl
  | cons line rest ih =>
    rw [List.flatMap_cons, totalAdded_append, ih]
    simp [totalAdded]
    omega

/-- The loop submits the job of each line, in order. -/
theorem submittedJobs_dispatch (wg : WaitGroupRef) (lines : List (List Char)) :
    submittedJobs
        (lines.flatMap (fun line => [ReadEvent.add wg 1, ReadEvent.addJob ⟨wg, line⟩]))
      = lines.map (fun line => ⟨wg, line⟩) := by
  induction lines with
  | nil => rfl
  | cons line rest ih =>
    rw [List.flatMap_cons, submittedJobs_append, ih]
    simp [submittedJobs]

/-- Claim C7: on an input stream of `n` lines `read` calls, for each line in input order,
`add(1)` on the wait group and then submits one job with the parameters (wait group,
line), and after the last line calls `wait()`, which is its last call and its only call
of `wait()`.  The total added to the wait group and the number of submitted jobs are both
`n`, the jobs are those of the lines in order, and no `add` comes after the `wait`. -/
theorem read_trace (wg : WaitGroupRef) (inputStream : List Char) :
    read wg inputStream =
      (getlineAll '\n' [] inputStream).flatMap
        (fun line => [ReadEvent.add wg 1, ReadEvent.addJob ⟨wg, line⟩]) ++
        [ReadEvent.wait wg] ∧
    (∀ e ∈ (getlineAll '\n' [] inputStream).flatMap
        (fun line => [ReadEvent.add wg 1, ReadEvent.addJob ⟨wg, line⟩]),
      ∀ w, e ≠ ReadEvent.wait w) ∧
    totalAdded (read wg inputStream) = (getlineAll '\n' [] inputStream).length ∧
    submittedJobs (read wg inputStream) =
      (getlineAll '\n' [] inputStream).map (fun line => ⟨wg, line⟩) ∧
    (submittedJobs (read wg inputStream)).length = (getlineAll '\n' [] inputStream).length := by
  have hread : read wg inputStream =
      (getlineAll '\n' [] inputStream).flatMap
        (fun line => [ReadEvent.add wg 1, ReadEvent.addJob ⟨wg, line⟩]) ++
        [ReadEvent.wait wg] := by
    unfold read
    rw [readLoop_eq]
    rfl
  have hjobs : submittedJobs (read wg inputStream) =
      (getlineAll '\n' [] inputStream).map (fun line => ⟨wg, line⟩) := by
    rw [hread, submittedJobs_append, submittedJobs_dispatch]
    simp [submittedJobs]
  refine ⟨hread, ?_, ?_, hjobs, ?_⟩
  · intro e he w
    rw [List.mem_flatMap] at he
    obtain ⟨line, _, hmem⟩ := he
    simp only [List.mem_cons, List.mem_singleton, List.not_mem_nil, or_false] at hmem
    rcases hmem with rfl | rfl <;> simp
  · rw [hread, totalAdded_append, totalAdded_dispatch]
    simp [totalAdded]
  · rw [hjobs, List.length_map]

/-! ## Edge identifiers (C8) -/

namespace graph

/-- The order of strings is asymmetric. -/
theorem strLess_asymm : ∀ x y : List Char, strLess x y = true → strLess y x = false
  | [], [], h => by simp [strLess] at h
  | [], _ :: _, _ => by simp [strLess]
  | _ :: _, [], h => by simp [strLess] at h
  | a :: as, b :: bs, h => by
    unfold strLess at h ⊢
    by_cases hab : a < b
    · have hba : ¬ b < a := not_lt_of_gt hab
      simp [hab, hba]
    · by_cases hba : b < a
      · simp [hab, hba] at h
      · simp only [hab, hba, if_false] at h ⊢
        exact strLess_asymm as bs h

/-- Two strings of which neither is smaller are equal. -/
theorem strLess_tie : ∀ x y : List Char, strLess x y = false → strLess y x = false → x = y
  | [], [], _, _ => rfl
  | [], _ :: _, h, _ => by simp [strLess] at h
  | _ :: _, [], _, h => by simp [strLess] at h
  | a :: as, b :: bs, h1, h2 => by
    unfold strLess at h1 h2
    by_cases hab : a < b
    · simp [hab] at h1
    · by_cases hba : b < a
      · simp [hba] at h2
      · simp only [hab, hba, if_false] at h1 h2
        have hc : a = b := le_antisymm (not_lt.mp hba) (not_lt.mp hab)
        rw [hc, strLess_tie as bs h1 h2]

/-- The edge identifier does not depend on the order of the pair. -/
theorem getEdgeID_swap_aux (mem : Memory) (a b : VertexPtr) :
    getEdgeID mem (a, b) = getEdgeID mem (b, a) := by
  unfold getEdgeID sortPair
  simp only
  cases hba : strLess (mem b).id (mem a).id
  · cases hab : strLess (mem a).id (mem b).id
    · have hid : (mem b).id = (mem a).id := strLess_tie _ _ hba hab
      simp [hid]
    · simp
  · have hab : strLess (mem a).id (mem b).id = false := strLess_asymm _ _ hba
    simp [hab]

/-- Claim C8: `Edge::getEdgeID` returns the same string for the pair (A, B) and for the
pair (B, A), and the edge constructed from (A, B) has the same id as the edge constructed
from (B, A). -/
theorem getEdgeID_swap (mem : Memory) (a b : VertexPtr) :
    getEdgeID mem (a, b) = getEdgeID mem (b, a) ∧
    (Edge.Edge mem (a, b)).m_id = (Edge.Edge mem (b, a)).m_id := by
  exact ⟨getEdgeID_swap_aux mem a b, getEdgeID_swap_aux mem a b⟩

end graph

/-! ## `parseLine`: the compared length (C9) and the fields that are read (C10) -/

/-- Claim C9 as stated fails: on the first example line of the spec (IRS = 100,
IRE = 600) the length that `parseLine` compares with the thresholds is 500, which is not
`IRE - IRS + 1 = 501`. -/
theorem parseHead_example_length :
    stoiAt (getlineAll '\t' [] "R1\tIL1\t100\t600\t+\tN1\t500\t200\t700\t500".toList) POS_IRS
      = .ok 100 ∧
    stoiAt (getlineAll '\t' [] "R1\tIL1\t100\t600\t+\tN1\t500\t200\t700\t500".toList) POS_IRE
      = .ok 600 ∧
    parseHead (getlineAll '\t' [] "R1\tIL1\t100\t600\t+\tN1\t500\t200\t700\t500".toList) =
      .ok { illuminaRange := (100, 599), matchCount := 500, nanoporeLength := 500,
            illuminaLength := 500, addNode := true } ∧
    (500 : Int) ≠ 600 - 100 + 1 := by
  refine ⟨rfl, rfl, rfl, by decide⟩

/-- Claim C9, amended: whenever lines 63-69 run through, the illumina range they build
from fields 2 and 3 is (IRS, IRE - 1) and the length compared with the thresholds, the
inclusive length of that range, is `IRE - IRS`; the record is accepted exactly when the
match count and this length, both as `std::size_t`, are at least `MINIMUM_MATCHES`. -/
theorem parseHead_length (line : List Char) (irs ire : Int) (h : Head)
    (hIRS : stoiAt (getlineAll '\t' [] line) POS_IRS = .ok irs)
    (hIRE : stoiAt (getlineAll '\t' [] line) POS_IRE = .ok ire)
    (hh : parseHead (getlineAll '\t' [] line) = .ok h) :
    h.illuminaRange = (irs, ire - 1) ∧ h.illuminaLength = ire - irs ∧
    h.addNode = (decide (MINIMUM_MATCHES ≤ h.matchCount) &&
      decide (MINIMUM_MATCHES ≤ toSizeT (ire - irs))) := by
  unfold parseHead readRange at hh
  simp only [hIRS, hIRE] at hh
  split at hh
  · cases hh
  · rename_i r hr
    split at hr
    · cases hr
    · rename_i second hsec
      injection hr with hr
      subst hr
      have hsecond : second = ire - 1 := by
        unfold checkedInt at hsec
        split at hsec
        · injection hsec with hsec
          exact hsec.symm
        · cases hsec
      subst hsecond
      split at hh
      · cases hh
      · split at hh
        · cases hh
        · split at hh
          · cases hh
          · rename_i len hlen
            have hl : len = ire - irs := by
              unfold rangeLength at hlen
              simp only at hlen
              split at hlen
              · cases hlen
              · rename_i d hd
                unfold checkedInt at hd hlen
                split at hd
                · injection hd with hd
                  split at hlen
                  · injection hlen with hlen
                    omega
                  · cases hlen
                · cases hd
            subst hl
            injection hh with hh
            subst hh
            exact ⟨rfl, rfl, rfl⟩

/-- Claim C9, amended, on the first example line of the spec: the range is (100, 599) and
the compared length is 500. -/
theorem parseHead_length_example :
    ((100, 599) : Int × Int) = (100, 600 - 1) ∧ (500 : Int) = 600 - 100 ∧
    true = (decide (MINIMUM_MATCHES ≤ 500) && decide (MINIMUM_MATCHES ≤ toSizeT (600 - 100))) :=
  parseHead_length "R1\tIL1\t100\t600\t+\tN1\t500\t200\t700\t500".toList 100 600
    { illuminaRange := (100, 599), matchCount := 500, nanoporeLength := 500,
      illuminaLength := 500, addNode := true } rfl rfl rfl

/-- Reading a token depends on that token only. -/
theorem tokenAt_congr {t1 t2 : List (List Char)} {pos : Nat} (h : t1[pos]? = t2[pos]?) :
    tokenAt t1 pos = tokenAt t2 pos := by
  unfold tokenAt
  rw [h]

/-- Parsing a token depends on that token only. -/
theorem stoiAt_congr {t1 t2 : List (List Char)} {pos : Nat} (h : t1[pos]? = t2[pos]?) :
    stoiAt t1 pos = stoiAt t2 pos := by
  unfold stoiAt
  rw [tokenAt_congr h]

/-- Lines 59-91 depend on the tokens 0 and 2 to 9 only, once there are ten of them. -/
theorem parseTokens_congr (wg : WaitGroupRef) {t1 t2 : List (List Char)}
    (h1 : 10 ≤ t1.length) (h2 : 10 ≤ t2.length)
    (hagree : ∀ i, i ≤ 9 → i ≠ 1 → t1[i]? = t2[i]?) :
    parseTokens wg t1 = parseTokens wg t2 := by
  have eIID : tokenAt t1 POS_IID = tokenAt t2 POS_IID :=
    tokenAt_congr (hagree 0 (by decide) (by decide))
  have eDIR : tokenAt t1 POS_DIR = tokenAt t2 POS_DIR :=
    tokenAt_congr (hagree 4 (by decide) (by decide))
  have eNID : tokenAt t1 POS_NID = tokenAt t2 POS_NID :=
    tokenAt_congr (hagree 5 (by decide) (by decide))
  have eIRS : stoiAt t1 POS_IRS = stoiAt t2 POS_IRS :=
    stoiAt_congr (hagree 2 (by decide) (by decide))
  have eIRE : stoiAt t1 POS_IRE = stoiAt t2 POS_IRE :=
    stoiAt_congr (hagree 3 (by decide) (by decide))
  have eNLE : stoiAt t1 POS_NLE = stoiAt t2 POS_NLE :=
    stoiAt_congr (hagree 6 (by decide) (by decide))
  have eNRS : stoiAt t1 POS_NRS = stoiAt t2 POS_NRS :=
    stoiAt_congr (hagree 7 (by decide) (by decide))
  have eNRE : stoiAt t1 POS_NRE = stoiAt t2 POS_NRE :=
    stoiAt_congr (hagree 8 (by decide) (by decide))
  have eNOM : stoiAt t1 POS_NOM = stoiAt t2 POS_NOM :=
    stoiAt_congr (hagree 9 (by decide) (by decide))
  have eHead : parseHead t1 = parseHead t2 := by
    unfold parseHead readRange
    rw [eIRS, eIRE, eNOM, eNLE]
  have eMatch : ∀ h, parseMatch t1 h = parseMatch t2 h := by
    intro h
    unfold parseMatch readRange
    rw [eIID, eDIR, eNRS, eNRE]
  have l1 : ¬ t1.length < maxPos := by rw [maxPos_eq]; omega
  have l2 : ¬ t2.length < maxPos := by rw [maxPos_eq]; omega
  unfold parseTokens
  rw [if_neg l1, if_neg l2, eHead, eNID]
  simp only [eMatch]

/-- Claim C10: two lines that both have at least ten tab separated fields and agree on
fields 0 and 2 to 9 get the same outcome from `parseLine`: the same calls (vertex, match
key, match record, `done()` on the same wait group) and the same way of ending.  Field 1
and the fields after the tenth are never read. -/
theorem parseLine_extra_fields (wg : WaitGroupRef) (line1 line2 : List Char)
    (h1 : 10 ≤ (getlineAll '\t' [] line1).length)
    (h2 : 10 ≤ (getlineAll '\t' [] line2).length)
    (hagree : ∀ i, i ≤ 9 → i ≠ 1 →
      (getlineAll '\t' [] line1)[i]? = (getlineAll '\t' [] line2)[i]?) :
    parseLine ⟨wg, line1⟩ = parseLine ⟨wg, line2⟩ := by
  unfold parseLine
  exact parseTokens_congr wg h1 h2 hagree

/-- Claim C10 on the first example line of the spec and a line that differs from it in
field 1 and carries two more fields: both give the same outcome. -/
theorem parseLine_extra_fields_example :
    parseLine ⟨7, "R1\tIL1\t100\t600\t+\tN1\t500\t200\t700\t500".toList⟩ =
      parseLine ⟨7, "R1\tother\t100\t600\t+\tN1\t500\t200\t700\t500\textra\t12".toList⟩ :=
  parseLine_extra_fields 7 "R1\tIL1\t100\t600\t+\tN1\t500\t200\t700\t500".toList
    "R1\tother\t100\t600\t+\tN1\t500\t200\t700\t500\textra\t12".toList
    (by decide) (by decide)
    (by
      intro i hi hne
      interval_cases i
      · rfl
      · exact absurd rfl hne
      all_goals rfl)

/-! ## The wait group (C11) -/

namespace threading

/-- A history that ran through can be cut anywhere: its first part ran through too. -/
theorem run_append_ok : ∀ (a b : List Call) (wg s : WaitGroup),
    wg.run (a ++ b) = .ok s → ∃ m, wg.run a = .ok m ∧ m.run b = .ok s
  | [], _, wg, _, h => ⟨wg, rfl, h⟩
  | c :: a, b, wg, s, h => by
    rw [List.cons_append, WaitGroup.run] at h
    rw [WaitGroup.run]
    cases hstep : wg.step c with
    | error r => rw [hstep] at h; cases h
    | ok next =>
      rw [hstep] at h
      exact run_append_ok a b next s h

/-- After a history that ran through, the events that follow act on the state reached. -/
theorem run_append_of_ok : ∀ (a b : List Call) (wg m : WaitGroup),
    wg.run a = .ok m → wg.run (a ++ b) = m.run b
  | [], _, wg, m, h => by
    rw [WaitGroup.run] at h
    injection h with h
    rw [List.nil_append, h]
  | c :: a, b, wg, m, h => by
    rw [WaitGroup.run] at h
    rw [List.cons_append, WaitGroup.run]
    cases hstep : wg.step c with
    | error r => rw [hstep] at h; cases h
    | ok next =>
      rw [hstep] at h
      exact run_append_of_ok a b next m h

/-- The total added is additive over histories. -/
theorem addTotal_append (a b : List Call) : addTotal (a ++ b) = addTotal a + addTotal b := by
  induction a with
  | nil => simp [addTotal]
  | cons c a ih => cases c <;> simp [addTotal, ih, Nat.add_assoc]

/-- The number of calls of `done` is additive over histories. -/
theorem doneCount_append (a b : List Call) :
    doneCount (a ++ b) = doneCount a + doneCount b := by
  induction a with
  | nil => simp [doneCount]
  | cons c a ih => cases c <;> simp [doneCount, ih, Nat.add_assoc]

/-- Leaving out the calls of `done` does not change the total added. -/
theorem addTotal_withoutDone (h : List Call) : addTotal (withoutDone h) = addTotal h := by
  induction h with
  | nil => rfl
  | cons c h ih => cases c <;> simp [withoutDone, addTotal, ih]

/-- The counter of the wait group keeps the balance of the history: what was added is
what is still pending plus what was signalled, as long as the total fits `std::size_t`. -/
theorem run_balance : ∀ (h : List Call) (wg s : WaitGroup),
    wg.m_jobCount + addTotal h < 18446744073709551616 → wg.run h = .ok s →
    s.m_jobCount + doneCount h = wg.m_jobCount + addTotal h
  | [], wg, s, _, hrun => by
    rw [WaitGroup.run] at hrun
    injection hrun with hrun
    rw [hrun]
    rfl
  | c :: h, wg, s, hfit, hrun => by
    rw [WaitGroup.run] at hrun
    cases hstep : wg.step c with
    | error r => rw [hstep] at hrun; cases hrun
    | ok next =>
      rw [hstep] at hrun
      cases c with
      | add newJobs =>
        simp only [addTotal] at hfit ⊢
        simp only [WaitGroup.step, WaitGroup.add] at hstep
        split at hstep
        · cases hstep
        · injection hstep with hstep
          have hnext : next.m_jobCount = wg.m_jobCount + newJobs := by
            rw [← hstep]
            exact Nat.mod_eq_of_lt (by omega)
          have ih := run_balance h next s (by omega) hrun
          simp only [doneCount]
          omega
      | done =>
        simp only [addTotal] at hfit ⊢
        simp only [WaitGroup.step, WaitGroup.done] at hstep
        split at hstep
        · cases hstep
        · rename_i hpos
          injection hstep with hstep
          have hnext : next.m_jobCount = wg.m_jobCount - 1 := by rw [← hstep]
          have ih := run_balance h next s (by omega) hrun
          simp only [doneCount]
          omega
      | waitEnter =>
        simp only [addTotal] at hfit ⊢
        simp only [WaitGroup.step, WaitGroup.waitEnter] at hstep
        split at hstep
        · cases hstep
        · injection hstep with hstep
          have hnext : next.m_jobCount = wg.m_jobCount := by rw [← hstep]
          have ih := run_balance h next s (by omega) hrun
          simp only [doneCount]
          omega
      | waitReturn =>
        simp only [addTotal] at hfit ⊢
        simp only [WaitGroup.step, WaitGroup.waitReturn] at hstep
        split at hstep
        · cases hstep
        · split at hstep
          · injection hstep with hstep
            have hnext : next.m_jobCount = wg.m_jobCount := by rw [← hstep]
            have ih := run_balance h next s (by omega) hrun
            simp only [doneCount]
            omega
          · cases hstep

/-- While a thread waits, nothing but calls of `done` takes place: a call of `add` is
refused and a second call of `wait` is not supported. -/
theorem run_waiting : ∀ (h : List Call) (wg s : WaitGroup),
    wg.m_waitLock = true → Call.waitReturn ∉ h → wg.run h = .ok s →
    s.m_waitLock = true ∧ (∀ c ∈ h, c = Call.done)
  | [], wg, s, hlock, _, hrun => by
    rw [WaitGroup.run] at hrun
    injection hrun with hrun
    rw [← hrun]
    exact ⟨hlock, by simp⟩
  | c :: h, wg, s, hlock, hno, hrun => by
    rw [WaitGroup.run] at hrun
    cases hstep : wg.step c with
    | error r => rw [hstep] at hrun; cases hrun
    | ok next =>
      rw [hstep] at hrun
      have hno' : Call.waitReturn ∉ h := fun hm => hno (List.mem_cons_of_mem _ hm)
      cases c with
      | add newJobs =>
        simp [WaitGroup.step, WaitGroup.add, hlock] at hstep
      | done =>
        simp only [WaitGroup.step, WaitGroup.done] at hstep
        split at hstep
        · cases hstep
        · injection hstep with hstep
          have hnext : next.m_waitLock = true := by rw [← hstep]; exact hlock
          obtain ⟨h1, h2⟩ := run_waiting h next s hnext hno' hrun
          refine ⟨h1, ?_⟩
          intro c hc
          rcases List.mem_cons.mp hc with rfl | hc
          · rfl
          · exact h2 c hc
      | waitEnter =>
        simp [WaitGroup.step, WaitGroup.waitEnter, hlock] at hstep
      | waitReturn =>
        exact absurd (List.mem_cons_self _ _) hno

/-- A history of calls of `done` adds nothing. -/
theorem addTotal_of_all_done : ∀ (h : List Call), (∀ c ∈ h, c = Call.done) → addTotal h = 0
  | [], _ => rfl
  | c :: h, hall => by
    have hc : c = Call.done := hall c (List.mem_cons_self _ _)
    subst hc
    simp only [addTotal]
    exact addTotal_of_all_done h (fun c hc => hall c (List.mem_cons_of_mem _ hc))

/-- The return of `wait` needs the count to be zero and leaves the fresh wait group. -/
theorem waitReturn_ok {wg s : WaitGroup} (h : wg.run [Call.waitReturn] = .ok s) :
    wg.m_jobCount = 0 ∧ s = WaitGroup.fresh := by
  rw [WaitGroup.run] at h
  cases hstep : wg.step Call.waitReturn with
  | error r => rw [hstep] at h; cases h
  | ok next =>
    rw [hstep] at h
    simp only [WaitGroup.run] at h
    injection h with h
    subst h
    simp only [WaitGroup.step, WaitGroup.waitReturn] at hstep
    split at hstep
    · cases hstep
    · split at hstep
      · rename_i hzero
        injection hstep with hstep
        refine ⟨hzero, ?_⟩
        rw [← hstep, WaitGroup.fresh, hzero]
      · cases hstep

/-- The events of `read` on its wait group add one per line. -/
theorem addTotal_callsOfRead (trace : List ReadEvent) :
    addTotal (callsOfRead trace) = totalAdded trace := by
  induction trace with
  | nil => rfl
  | cons e trace ih => cases e <;> simp [callsOfRead, addTotal, totalAdded, ih]

/-- The call of `wait` sets the toggle and leaves the count as it is. -/
theorem waitEnter_ok {wg s : WaitGroup} (h : wg.run [Call.waitEnter] = .ok s) :
    s.m_waitLock = true ∧ s.m_jobCount = wg.m_jobCount := by
  rw [WaitGroup.run] at h
  cases hstep : wg.step Call.waitEnter with
  | error r => rw [hstep] at h; cases h
  | ok next =>
    rw [hstep] at h
    simp only [WaitGroup.run] at h
    injection h with h
    subst h
    simp only [WaitGroup.step, WaitGroup.waitEnter] at hstep
    split at hstep
    · cases hstep
    · injection hstep with hstep
      rw [← hstep]
      exact ⟨rfl, rfl⟩

/-- The calls of `add` that `read` makes sum up to the number of lines. -/
theorem totalAdded_read (wg : WaitGroupRef) (inputStream : List Char) :
    totalAdded (read wg inputStream) = (getlineAll '\n' [] inputStream).length := by
  unfold read
  rw [readLoop_eq, totalAdded_append, List.nil_append, totalAdded_dispatch]
  rfl

/-- The function `read` submits one job per line. -/
theorem submittedJobs_read_length (wg : WaitGroupRef) (inputStream : List Char) :
    (submittedJobs (read wg inputStream)).length = (getlineAll '\n' [] inputStream).length := by
  unfold read
  rw [readLoop_eq, submittedJobs_append, List.nil_append, submittedJobs_dispatch,
    List.length_append, List.length_map]
  rfl

/-- Claim C11, for the wait group of the spec.  Take a history of a fresh wait group in
which `wait()` is called after the events `before` and returns after the events `during`,
the total added fitting `std::size_t`.  Then nothing but calls of `done()` took place
while the thread was waiting; the number of calls of `done()` observed by the time
`wait()` returns is the total of what the calls of `add()` issued before the call of
`wait()` added; the wait group is again in its fresh state; and whatever follows behaves
as it would on a fresh wait group.  When the history is that of `read` (its calls of `add`
and of `wait`, interleaved with calls of `done()`), the number of calls of `done()`
observed when `read` returns is the number of jobs that `read` submitted; a job calls
`done()` once, as its last effect, and only when it completes. -/
theorem wait_returns_after_every_done (before during : List Call) (s : WaitGroup)
    (hfit : addTotal before < 18446744073709551616)
    (hno : Call.waitReturn ∉ during)
    (hrun : WaitGroup.fresh.run
      (before ++ [Call.waitEnter] ++ during ++ [Call.waitReturn]) = .ok s) :
    (∀ c ∈ during, c = Call.done) ∧
    doneCount (before ++ during) = addTotal before ∧
    s = WaitGroup.fresh ∧
    (∀ rest, WaitGroup.fresh.run
        (before ++ [Call.waitEnter] ++ during ++ [Call.waitReturn] ++ rest) =
      WaitGroup.fresh.run rest) ∧
    (∀ (wg : WaitGroupRef) (inputStream : List Char),
      withoutDone (before ++ [Call.waitEnter] ++ during) = callsOfRead (read wg inputStream) →
      doneCount (before ++ during) = (submittedJobs (read wg inputStream)).length) := by
  obtain ⟨m2, hpre, hret⟩ := run_append_ok _ _ _ _ hrun
  obtain ⟨m1, hpre1, hduring⟩ := run_append_ok _ _ _ _ hpre
  obtain ⟨m0, hbefore, henter⟩ := run_append_ok _ _ _ _ hpre1
  obtain ⟨hlock, hcount⟩ := waitEnter_ok henter
  obtain ⟨_, hall⟩ := run_waiting during m1 m2 hlock hno hduring
  obtain ⟨hzero, hfresh⟩ := waitReturn_ok hret
  have hadd : addTotal during = 0 := addTotal_of_all_done during hall
  have hb0 := run_balance before WaitGroup.fresh m0
    (by simp only [WaitGroup.fresh]; omega) hbefore
  simp only [WaitGroup.fresh] at hb0
  have hb1 := run_balance during m1 m2 (by omega) hduring
  have hdone : doneCount (before ++ during) = addTotal before := by
    rw [doneCount_append]
    omega
  refine ⟨hall, hdone, hfresh, ?_, ?_⟩
  · intro rest
    rw [run_append_of_ok _ rest _ _ hrun, hfresh]
  · intro wg inputStream hcalls
    have htotal : addTotal (before ++ [Call.waitEnter] ++ during) = addTotal before := by
      rw [addTotal_append, addTotal_append, hadd]
      simp [addTotal]
    rw [hdone, ← htotal, ← addTotal_withoutDone, hcalls, addTotal_callsOfRead,
      totalAdded_read, submittedJobs_read_length]

/-- Claim C11 on the history of `read` on an input stream of two lines: the first job
signals `done()` before the second line is dispatched, the second one while `read` waits.
Both calls of `done()` precede the return of `wait()`, they are as many as the jobs
submitted, and the wait group ends fresh. -/
theorem wait_returns_after_every_done_example :
    (∀ c ∈ [Call.done], c = Call.done) ∧
    doneCount ([Call.add 1, Call.done, Call.add 1] ++ [Call.done]) =
      addTotal [Call.add 1, Call.done, Call.add 1] ∧
    WaitGroup.fresh = WaitGroup.fresh ∧
    (∀ rest, WaitGroup.fresh.run
        ([Call.add 1, Call.done, Call.add 1] ++ [Call.waitEnter] ++ [Call.done] ++
          [Call.waitReturn] ++ rest) =
      WaitGroup.fresh.run rest) ∧
    doneCount ([Call.add 1, Call.done, Call.add 1] ++ [Call.done]) =
      (submittedJobs (read 3 "l1\nl2".toList)).length :=
  have h := wait_returns_after_every_done [Call.add 1, Call.done, Call.add 1] [Call.done]
    WaitGroup.fresh (by decide) (by decide) rfl
  ⟨h.1, h.2.1, h.2.2.1, h.2.2.2.1, h.2.2.2.2 3 "l1\nl2".toList rfl⟩

end threading

/-! ## `parseLine`: the flag of the stricter thresholds (C12) -/

/-- Claim C12: take a line whose fields 0, 4 and 5 exist, whose six numeric fields parse,
whose `int` arithmetic stays inside `int`, that the code accepts and whose match count
`NOM` and illumina range length `IRE - IRS` are not negative.  Then the vertex and the
match are inserted, whatever the value of the flag, and the flag `thresholdsPassed` stored
in the match is true exactly when the length is at least `TH_LENGTH` and the match count
is at least `TH_MATCHES`, both of them. -/
theorem parseLine_thresholdsPassed (wg : WaitGroupRef) (line iid dir nid : List Char)
    (irs ire nom nle nrs nre : Int)
    (hIID : tokenAt (getlineAll '\t' [] line) POS_IID = .ok iid)
    (hDIR : tokenAt (getlineAll '\t' [] line) POS_DIR = .ok dir)
    (hNID : tokenAt (getlineAll '\t' [] line) POS_NID = .ok nid)
    (hIRS : stoiAt (getlineAll '\t' [] line) POS_IRS = .ok irs)
    (hIRE : stoiAt (getlineAll '\t' [] line) POS_IRE = .ok ire)
    (hNOM : stoiAt (getlineAll '\t' [] line) POS_NOM = .ok nom)
    (hNLE : stoiAt (getlineAll '\t' [] line) POS_NLE = .ok nle)
    (hNRS : stoiAt (getlineAll '\t' [] line) POS_NRS = .ok nrs)
    (hNRE : stoiAt (getlineAll '\t' [] line) POS_NRE = .ok nre)
    (hI : RangeInInt irs ire) (hN : RangeInInt nrs nre)
    (hacc : MINIMUM_MATCHES ≤ toSizeT nom ∧ MINIMUM_MATCHES ≤ toSizeT (ire - 1 - irs + 1))
    (hnom : 0 ≤ nom) (hlength : 0 ≤ ire - irs) :
    ∃ vm, parseLine ⟨wg, line⟩ =
        ⟨[.addVertex nid nle, .addVertexMatch nid iid vm, .done wg], .returned⟩ ∧
      (vm.thresholdsPassed = true ↔
        (TH_LENGTH : Int) ≤ ire - irs ∧ (TH_MATCHES : Int) ≤ nom) := by
  have hshort := not_short_of_nom hNOM
  have hh := parseHead_ok hIRS hIRE hNOM hNLE hI
  have hm := parseMatch_ok
    { illuminaRange := (irs, ire - 1)
      matchCount := toSizeT nom
      nanoporeLength := nle
      illuminaLength := ire - 1 - irs + 1
      addNode := decide (MINIMUM_MATCHES ≤ toSizeT nom) &&
        decide (MINIMUM_MATCHES ≤ toSizeT (ire - 1 - irs + 1)) } hIID hDIR hNRS hNRE hN
  have hyes : (decide (MINIMUM_MATCHES ≤ toSizeT nom) &&
      decide (MINIMUM_MATCHES ≤ toSizeT (ire - 1 - irs + 1))) = true := by
    simp [hacc.1, hacc.2]
  have hrun := parseTokens_accept wg hshort hh hyes hNID hm
  refine ⟨_, hrun, ?_⟩
  have hl : 0 ≤ ire - 1 - irs + 1 := by omega
  have e1 : toSizeT (ire - 1 - irs + 1) = (ire - 1 - irs + 1).toNat :=
    toSizeT_of_nonneg hl hI.2.2
  have e2 : toSizeT nom = nom.toNat := toSizeT_of_nonneg hnom (stoiAt_inInt hNOM)
  simp only [e1, e2, Bool.and_eq_true, decide_eq_true_eq, TH_LENGTH, TH_MATCHES]
  constructor
  · rintro ⟨h1, h2⟩
    constructor <;> omega
  · rintro ⟨h1, h2⟩
    constructor <;> omega

/-- Claim C12 on two lines that are both accepted.  On the first example line of the spec
length and match count are 500 and the flag is true; on the second line the length is 460
and the match count 450, the flag is false, and vertex and match are inserted all the
same. -/
theorem parseLine_thresholdsPassed_examples :
    (∃ vm, parseLine ⟨7, "R1\tIL1\t100\t600\t+\tN1\t500\t200\t700\t500".toList⟩ =
        ⟨[.addVertex "N1".toList 500, .addVertexMatch "N1".toList "R1".toList vm, .done 7],
          .returned⟩ ∧
      (vm.thresholdsPassed = true ↔
        (TH_LENGTH : Int) ≤ 600 - 100 ∧ (TH_MATCHES : Int) ≤ 500)) ∧
    (∃ vm, parseLine ⟨7, "R3\tIL3\t100\t560\t-\tN3\t900\t10\t470\t450".toList⟩ =
        ⟨[.addVertex "N3".toList 900, .addVertexMatch "N3".toList "R3".toList vm, .done 7],
          .returned⟩ ∧
      (vm.thresholdsPassed = true ↔
        (TH_LENGTH : Int) ≤ 560 - 100 ∧ (TH_MATCHES : Int) ≤ 450)) :=
  ⟨parseLine_thresholdsPassed 7 "R1\tIL1\t100\t600\t+\tN1\t500\t200\t700\t500".toList
      "R1".toList "+".toList "N1".toList 100 600 500 500 200 700
      rfl rfl rfl rfl rfl rfl rfl rfl rfl (by decide) (by decide) (by decide) (by decide)
      (by decide),
   parseLine_thresholdsPassed 7 "R3\tIL3\t100\t560\t-\tN3\t900\t10\t470\t450".toList
      "R3".toList "-".toList "N3".toList 100 560 450 900 10 470
      rfl rfl rfl rfl rfl rfl rfl rfl rfl (by decide) (by decide) (by decide) (by decide)
      (by decide)⟩

/-! ## Edge identifiers: canonical form, invariant of an edge, no collision (C13, C14, C15) -/

namespace graph

/-- The edge identifier written out: the smaller identifier, a comma, the other one. -/
theorem getEdgeID_eq (mem : Memory) (a b : VertexPtr) :
    getEdgeID mem (a, b) =
      if strLess (mem b).id (mem a).id then (mem b).id ++ [','] ++ (mem a).id
      else (mem a).id ++ [','] ++ (mem b).id := by
  unfold getEdgeID sortPair
  simp only
  split <;> rfl

/-- Claim C13: `Edge::getEdgeID` returns the two identifiers joined by one comma, in an
order fixed by the identifiers alone (the smaller identifier first), so two pairs of
vertices whose identifiers agree get the same edge identifier, also when the vertices are
different objects. -/
theorem getEdgeID_by_identifiers (mem mem2 : Memory) (a b a2 b2 : VertexPtr)
    (hA : (mem a).id = (mem2 a2).id) (hB : (mem b).id = (mem2 b2).id) :
    getEdgeID mem (a, b) = getEdgeID mem2 (a2, b2) ∧
    getEdgeID mem (a, b) =
      (if strLess (mem b).id (mem a).id then (mem b).id ++ [','] ++ (mem a).id
       else (mem a).id ++ [','] ++ (mem b).id) := by
  refine ⟨?_, getEdgeID_eq mem a b⟩
  rw [getEdgeID_eq, getEdgeID_eq, hA, hB]

/-- Claim C13 on four vertex objects: those at the addresses 0 and 3 have the identifier
`b`, those at 1 and 2 the identifier `a`; the pairs (0, 1) and (3, 2) both get `a,b`. -/
theorem getEdgeID_by_identifiers_example :
    getEdgeID (fun p => if p = 0 ∨ p = 3 then ⟨['b']⟩ else ⟨['a']⟩) (0, 1) =
      getEdgeID (fun p => if p = 0 ∨ p = 3 then ⟨['b']⟩ else ⟨['a']⟩) (3, 2) ∧
    getEdgeID (fun p => if p = 0 ∨ p = 3 then ⟨['b']⟩ else ⟨['a']⟩) (0, 1) =
      (if strLess ['a'] ['b'] then ['a'] ++ [','] ++ ['b'] else ['b'] ++ [','] ++ ['a']) :=
  getEdgeID_by_identifiers (fun p => if p = 0 ∨ p = 3 then ⟨['b']⟩ else ⟨['a']⟩)
    (fun p => if p = 0 ∨ p = 3 then ⟨['b']⟩ else ⟨['a']⟩) 0 1 3 2 rfl rfl

/-- Claim C14: in every edge built by `Edge::Edge` the stored pair is the sorted form of
the argument (the argument or its swap, the identifier of the second vertex not smaller
than that of the first) and the stored id is the identifier of the first stored vertex, a
comma, the identifier of the second stored vertex: the pair of raw pointers that yields
the id and the pair of shared pointers that is stored are put in the same order. -/
theorem Edge_id_matches_vertices (mem : Memory) (vertices : VertexPtr × VertexPtr) :
    (Edge.Edge mem vertices).m_vertices = sortPair mem vertices ∧
    ((Edge.Edge mem vertices).m_vertices = vertices ∨
      (Edge.Edge mem vertices).m_vertices = (vertices.2, vertices.1)) ∧
    strLess (mem (Edge.Edge mem vertices).m_vertices.2).id
      (mem (Edge.Edge mem vertices).m_vertices.1).id = false ∧
    (Edge.Edge mem vertices).m_id =
      (mem (Edge.Edge mem vertices).m_vertices.1).id ++ [','] ++
        (mem (Edge.Edge mem vertices).m_vertices.2).id := by
  obtain ⟨a, b⟩ := vertices
  unfold Edge.Edge getEdgeID sortPair
  simp only
  cases hba : strLess (mem b).id (mem a).id
  · simp [hba]
  · have hab : strLess (mem a).id (mem b).id = false := strLess_asymm _ _ hba
    simp [hab]

/-- Two texts cut at their first comma: equal texts have equal parts. -/
theorem append_comma_inj : ∀ (x x2 y y2 : List Char), ',' ∉ x → ',' ∉ x2 →
    x ++ ',' :: y = x2 ++ ',' :: y2 → x = x2 ∧ y = y2
  | [], [], _, _, _, _, h => by
    simp only [List.nil_append, List.cons.injEq, true_and] at h
    exact ⟨rfl, h⟩
  | [], c :: x2, _, _, _, h2, h => by
    simp only [List.nil_append, List.cons_append, List.cons.injEq] at h
    exact absurd (h.1 ▸ List.mem_cons_self _ _) h2
  | c :: x, [], _, _, h1, _, h => by
    simp only [List.nil_append, List.cons_append, List.cons.injEq] at h
    exact absurd (h.1 ▸ List.mem_cons_self _ _) h1
  | c :: x, c2 :: x2, y, y2, h1, h2, h => by
    simp only [List.cons_append, List.cons.injEq] at h
    obtain ⟨hx, hy⟩ := append_comma_inj x x2 y y2
      (fun hm => h1 (List.mem_cons_of_mem _ hm)) (fun hm => h2 (List.mem_cons_of_mem _ hm)) h.2
    exact ⟨by rw [h.1, hx], hy⟩

/-- Claim C15: when no identifier holds a comma, two pairs of vertices with the same edge
identifier have the same unordered pair of identifiers. -/
theorem getEdgeID_no_collision (mem : Memory) (a b c d : VertexPtr)
    (hA : ',' ∉ (mem a).id) (hB : ',' ∉ (mem b).id)
    (hC : ',' ∉ (mem c).id) (hD : ',' ∉ (mem d).id)
    (h : getEdgeID mem (a, b) = getEdgeID mem (c, d)) :
    ((mem a).id = (mem c).id ∧ (mem b).id = (mem d).id) ∨
    ((mem a).id = (mem d).id ∧ (mem b).id = (mem c).id) := by
  rw [getEdgeID_eq, getEdgeID_eq] at h
  simp only [List.append_assoc, List.singleton_append] at h
  split at h <;> split at h
  · obtain ⟨h1, h2⟩ := append_comma_inj _ _ _ _ hB hD h
    exact Or.inl ⟨h2, h1⟩
  · obtain ⟨h1, h2⟩ := append_comma_inj _ _ _ _ hB hC h
    exact Or.inr ⟨h2, h1⟩
  · obtain ⟨h1, h2⟩ := append_comma_inj _ _ _ _ hA hD h
    exact Or.inr ⟨h1, h2⟩
  · obtain ⟨h1, h2⟩ := append_comma_inj _ _ _ _ hA hC h
    exact Or.inl ⟨h1, h2⟩

/-- Claim C15 on the vertices with the identifiers `b` (address 0) and `a` (address 1):
the pairs (0, 1) and (1, 0) have the same edge identifier and the same identifiers. -/
theorem getEdgeID_no_collision_example :
    ((['b'] : List Char) = ['a'] ∧ (['a'] : List Char) = ['b']) ∨
    ((['b'] : List Char) = ['b'] ∧ (['a'] : List Char) = ['a']) :=
  getEdgeID_no_collision (fun p => if p = 0 then ⟨['b']⟩ else ⟨['a']⟩) 0 1 1 0
    (by decide) (by decide) (by decide) (by decide) (by decide)

end graph

end lazybastard
